import Mathlib

/-!
Verification of the topology-aware hint generation and merging core
(`pkg/kubelet/cm/topologymanager` and the device-manager hint generator).

Conventions of the shallow embedding:
* Go `*int` / `*float64` fields become `Option ℤ` / `Option ℚ`; a `nil`
  pointer is `none`.  Go `float64` arithmetic is modelled over `ℚ`
  (the formulas under scrutiny are exact decimal computations).
* The process-wide `EnhancedTopologyHintsEnabled()` feature gate is passed
  explicitly as a `gate : Bool` argument, snapshotting the Go global.
* A Go runtime panic (method call on a nil interface) is modelled by an
  `Option` result: `none` means the corresponding Go execution panics.
* `bitmask.BitMask` is a set of NUMA node indices; it is modelled as
  `Finset ℕ`.  The bitmask package itself is not part of the surveyed
  sources, so its operations are modelled from the spec (see the
  `Modelled from the spec:` doc comments below).
-/

namespace TopoSpec

/-- A NUMA affinity mask: a set over NUMA node indices. -/
abbrev BitMask := Finset ℕ

/-- Ascending list of the bit indices set in a mask (`BitMask.GetBits`). -/
def getBits (m : BitMask) : List ℕ :=
  m.sort (· ≤ ·)

/-- Modelled from the spec: `any-of(indices)` — true when at least one of the
given indices is a member of the mask (`BitMask.AnySet`). -/
def anySet (m : BitMask) (indices : List ℕ) : Bool :=
  indices.any (fun i => decide (i ∈ m))

/-- Modelled from the spec: BitMask set equality (`BitMask.IsEqual`). -/
def bmIsEqual (a b : BitMask) : Bool :=
  decide (a = b)

/-- Strict lexicographic comparison of two ascending index lists. -/
def lexLt : List ℕ → List ℕ → Bool
  | _, [] => false
  | [], _ :: _ => true
  | a :: as, b :: bs => if a < b then true else if b < a then false else lexLt as bs

/-- Modelled from the spec: the BitMask total order "narrower than"
(`BitMask.IsNarrowerThan`): `a < b` iff `a` is a proper subset of `b`, with
the fallback — for subset-incomparable masks — that `a`'s set of bit indices
compares lexicographically less than `b`'s.  (The proper-subset test is the
primary comparison, deciding both directions; the lexicographic fallback
applies when neither mask contains the other, which makes the relation the
strict total order the spec asserts it to be.) -/
def isNarrowerThan (a b : BitMask) : Bool :=
  if a ⊂ b then true
  else if b ⊂ a then false
  else lexLt (getBits a) (getBits b)

/-- The `TopologyHint` record (`topology_manager.go`).  `NUMANodeAffinity`
is an optional mask (`nil` interface = `none`); the four enhanced fields are
optional pointers. -/
structure TopologyHint where
  NUMANodeAffinity : Option BitMask
  Preferred : Bool
  HopCount : Option ℤ
  Bandwidth : Option ℚ
  Distance : Option ℤ
  Score : Option ℚ
  deriving DecidableEq

/-- `hasEnhancedFields`: true if any enhanced topology field is set. -/
def TopologyHint.hasEnhancedFields (th : TopologyHint) : Bool :=
  th.HopCount.isSome || th.Bandwidth.isSome || th.Distance.isSome || th.Score.isSome

/-- `equalIntPointer`: nil-safe comparison of two optional integers. -/
def equalIntPointer (a b : Option ℤ) : Bool :=
  match a, b with
  | some x, some y => decide (x = y)
  | none, none => true
  | _, _ => false

/-- `equalFloat64Pointer`: nil-safe comparison of two optional floats. -/
def equalFloat64Pointer (a b : Option ℚ) : Bool :=
  match a, b with
  | some x, some y => decide (x = y)
  | none, none => true
  | _, _ => false

/-- `TopologyHint.IsEqual`: equality of hints; the affinity comparison
treats a `nil` mask as equal only to a `nil` mask, and the enhanced fields
are compared nil-safely. -/
def TopologyHint.IsEqual (th other : TopologyHint) : Bool :=
  if th.Preferred ≠ other.Preferred then false
  else
    match th.NUMANodeAffinity, other.NUMANodeAffinity with
    | none, some _ => false
    | some _, none => false
    | none, none =>
        equalIntPointer th.HopCount other.HopCount
          && equalFloat64Pointer th.Bandwidth other.Bandwidth
          && equalIntPointer th.Distance other.Distance
          && equalFloat64Pointer th.Score other.Score
    | some a, some b =>
        if ¬ bmIsEqual a b then false
        else
          equalIntPointer th.HopCount other.HopCount
            && equalFloat64Pointer th.Bandwidth other.Bandwidth
            && equalIntPointer th.Distance other.Distance
            && equalFloat64Pointer th.Score other.Score

/-- Score comparison step of `LessThan`: decides when both scores are present
and different (lower wins), or when exactly one is present (present wins);
otherwise defers to the next comparison. -/
def scoreDecide (th other : TopologyHint) : Option Bool :=
  match th.Score, other.Score with
  | some x, some y => if x ≠ y then some (decide (x < y)) else none
  | none, none => none
  | some _, none => some true
  | none, some _ => some false

/-- Hop-count comparison step of `LessThan`: decides only when both are
present and different (lower wins). -/
def hopDecide (th other : TopologyHint) : Option Bool :=
  match th.HopCount, other.HopCount with
  | some x, some y => if x ≠ y then some (decide (x < y)) else none
  | _, _ => none

/-- Distance comparison step of `LessThan`: decides only when both are
present and different (lower wins). -/
def distDecide (th other : TopologyHint) : Option Bool :=
  match th.Distance, other.Distance with
  | some x, some y => if x ≠ y then some (decide (x < y)) else none
  | _, _ => none

/-- Bandwidth comparison step of `LessThan`: decides only when both are
present and different (higher wins). -/
def bwDecide (th other : TopologyHint) : Option Bool :=
  match th.Bandwidth, other.Bandwidth with
  | some x, some y => if x ≠ y then some (decide (y < x)) else none
  | _, _ => none

/-- The enhanced-metrics comparison chain of `LessThan`: score, then hop
count, then distance, then bandwidth; `none` when no step decides. -/
def enhancedDecide (th other : TopologyHint) : Option Bool :=
  match scoreDecide th other with
  | some r => some r
  | none =>
    match hopDecide th other with
    | some r => some r
    | none =>
      match distDecide th other with
      | some r => some r
      | none => bwDecide th other

/-- `TopologyHint.LessThan`.  After the preferred-flag shortcut the Go code
unconditionally evaluates `th.NUMANodeAffinity.IsNarrowerThan(...)`: a `nil`
affinity on either side is a method call on a nil interface, i.e. a panic,
modelled here by `none`. -/
def TopologyHint.LessThan (gate : Bool) (th other : TopologyHint) : Option Bool :=
  if th.Preferred ≠ other.Preferred then some th.Preferred
  else
    th.NUMANodeAffinity.bind fun ma =>
      other.NUMANodeAffinity.map fun mb =>
        let numaComparison := isNarrowerThan ma mb
        if gate && (th.hasEnhancedFields || other.hasEnhancedFields) then
          (enhancedDecide th other).getD numaComparison
        else numaComparison

/-- `TopologyHint.GetHopCount`: 0 when the gate is off or the field is nil. -/
def TopologyHint.GetHopCount (gate : Bool) (th : TopologyHint) : ℤ :=
  if gate then th.HopCount.getD 0 else 0

/-- `TopologyHint.GetBandwidth`: 0.0 when the gate is off or the field is nil. -/
def TopologyHint.GetBandwidth (gate : Bool) (th : TopologyHint) : ℚ :=
  if gate then th.Bandwidth.getD 0 else 0

/-- `TopologyHint.GetDistance`: 10 (local) when the gate is off or the field
is nil. -/
def TopologyHint.GetDistance (gate : Bool) (th : TopologyHint) : ℤ :=
  if gate then th.Distance.getD 10 else 10

/-- `TopologyHint.GetScore`: 0.0 when the gate is off or the field is nil. -/
def TopologyHint.GetScore (gate : Bool) (th : TopologyHint) : ℚ :=
  if gate then th.Score.getD 0 else 0

/-- `TopologyHint.SetEnhancedFields`: sets the four enhanced fields, but only
when the feature gate is enabled; a no-op otherwise. -/
def TopologyHint.SetEnhancedFields (gate : Bool) (th : TopologyHint)
    (hopCount : Option ℤ) (bandwidth : Option ℚ) (distance : Option ℤ)
    (score : Option ℚ) : TopologyHint :=
  if gate then
    { th with HopCount := hopCount, Bandwidth := bandwidth,
              Distance := distance, Score := score }
  else th

/-- `CalculateTopologyScore` (`topology_manager.go`): latency from hop count
and distance plus a bandwidth transfer-time penalty; 0 when the gate is off. -/
def CalculateTopologyScore (gate : Bool) (hopCount : ℤ) (bandwidth : ℚ)
    (distance : ℤ) (dataSize : ℤ) : ℚ :=
  if gate then
    let latency : ℚ := 10 + (hopCount : ℚ) * 10
    let latency : ℚ := if distance > 10 then latency + ((distance : ℚ) - 10) else latency
    let bandwidthPenalty : ℚ :=
      if bandwidth > 0 && dataSize > 0 then
        (dataSize : ℚ) / (bandwidth * 1024 * 1024 * 1024)
      else 0
    latency + bandwidthPenalty
  else 0

/-- `CreateEnhancedHint`: builds a hint; the enhanced fields (and a computed
score) are populated only when the gate is enabled. -/
def CreateEnhancedHint (gate : Bool) (numaAffinity : Option BitMask)
    (preferred : Bool) (hopCount : ℤ) (bandwidth : ℚ) (distance : ℤ)
    (dataSize : ℤ) : TopologyHint :=
  let hint : TopologyHint :=
    { NUMANodeAffinity := numaAffinity, Preferred := preferred,
      HopCount := none, Bandwidth := none, Distance := none, Score := none }
  if gate then
    { hint with
        HopCount := some hopCount,
        Bandwidth := some bandwidth,
        Distance := some distance,
        Score := some (CalculateTopologyScore gate hopCount bandwidth distance dataSize) }
  else hint

/-- NUMA topology information held by a policy: the machine's NUMA node ids.
(The distance matrix is not consulted by any of the code under study.) -/
structure NUMAInfo where
  Nodes : List ℕ

/-- Modelled from the spec: `NUMAInfo.DefaultAffinityMask` — the mask with
all NUMA nodes set. -/
def NUMAInfo.DefaultAffinityMask (n : NUMAInfo) : BitMask :=
  n.Nodes.toFinset

/-- Modelled from the spec: `bitmask.IterateBitMasks` (§4.1) — every
non-empty subset of the given node list exactly once, smaller-cardinality
masks first; within a cardinality the order is deterministic (no theorem
below depends on the within-cardinality tie order). -/
def iterateBitMasks (nodes : List ℕ) : List BitMask :=
  (List.range nodes.length).flatMap
    (fun k => (List.sublistsLen (k + 1) nodes).map (fun l => l.toFinset))

/-- A device-plugin device for one resource: its id and the NUMA node ids
declared by its `Topology` field (`none` models a nil `TopologyInfo`).
Device-id sets (`available`, `reusable`) are represented by the lists of
device records they resolve to through `allDevices`. -/
structure Device where
  id : String
  topology : Option (List ℕ)
  deriving DecidableEq

/-- `getNUMANodeIds`: nil topology yields no node ids. -/
def nodeIds (topology : Option (List ℕ)) : List ℕ :=
  topology.getD []

/-- The `devicesInMask` count of `generateDeviceTopologyHints`: how many
devices of the resource have a topology intersecting the mask (each device
counted once, via `AnySet`). -/
def devicesInMask (allDevices : List Device) (mask : BitMask) : ℕ :=
  (allDevices.filter (fun dev => anySet mask (nodeIds dev.topology))).length

/-- The `availableDevices` count of `calculateEnhancedTopologyFields`.  The
Go loop scans each device's topology node list and, per node entry, scans
the mask's node list, incrementing and `break`ing on a match: the `break`
terminates only the inner scan, so a device contributes once per entry of
its topology node list that lies in the mask. -/
def availableDevicesCount (allDevices : List Device) (numaNodes : List ℕ) : ℕ :=
  (allDevices.map (fun dev =>
    match dev.topology with
    | none => 0
    | some ids => (ids.filter (fun i => decide (i ∈ numaNodes))).length)).sum

/-- `ManagerImpl.calculateEnhancedTopologyFields`: decorates a hint with hop
count, distance, bandwidth and a utilization-aware score.  The Go float
division `requestedDevices / availableDevices` is modelled exactly except
when `availableDevices = 0`: there Go produces `+Inf` (clamped to 1 by the
ratio cap) for a positive request, which is modelled directly, while the
`0/0` NaN corner is not representable over `ℚ` (no theorem relies on it). -/
def calculateEnhancedTopologyFields (gate : Bool) (allDevices : List Device)
    (hint : TopologyHint) (requestedDevices : ℤ) : TopologyHint :=
  if gate then
    match hint.NUMANodeAffinity with
    | none => hint
    | some mask =>
      let numaNodes := getBits mask
      if numaNodes.isEmpty then hint
      else
        let hopCount0 : ℤ := (numaNodes.length : ℤ) - 1
        let hopCount : ℤ := if hopCount0 < 0 then 0 else hopCount0
        let totalDistance : ℤ :=
          if numaNodes.length = 1 then 10 else 10 + hopCount * 20
        let bandwidth0 : ℚ := 80 * (1 - (hopCount : ℚ) * (2 / 5))
        let bandwidth : ℚ := if bandwidth0 < 10 then 10 else bandwidth0
        let availableDevices : ℕ := availableDevicesCount allDevices numaNodes
        let ratio0 : ℚ :=
          if availableDevices = 0 then 1
          else (requestedDevices : ℚ) / (availableDevices : ℚ)
        let utilClamped : ℚ := if ratio0 > 1 then 1 else ratio0
        let distancePenalty : ℚ := ((totalDistance : ℚ) - 10) * 2
        let hopPenalty : ℚ := (hopCount : ℚ) * 12
        let utilizationBonus : ℚ := (1 - utilClamped) * 10
        let score0 : ℚ := distancePenalty + hopPenalty - utilizationBonus
        let score : ℚ := if score0 < 0 then 0 else score0
        hint.SetEnhancedFields gate (some hopCount) (some bandwidth)
          (some totalDistance) (some score)
  else hint

/-- The hint built by `generateDeviceTopologyHints` for one emitted mask:
preference is `false` on the first pass; enhanced fields are added when the
gate is enabled. -/
def mkDeviceHint (gate : Bool) (allDevices : List Device) (mask : BitMask)
    (request : ℤ) : TopologyHint :=
  let hint : TopologyHint :=
    { NUMANodeAffinity := some mask, Preferred := false,
      HopCount := none, Bandwidth := none, Distance := none, Score := none }
  if gate then calculateEnhancedTopologyFields gate allDevices hint request
  else hint

/-- One iteration of the mask loop of `generateDeviceTopologyHints`: update
`minAffinitySize`, skip the mask if a topology-bearing reusable device does
not intersect it, count matching reusable and available devices, and emit a
hint when the count satisfies the request. -/
def genStep (gate : Bool) (allDevices : List Device)
    (available reusable : List Device) (request : ℤ)
    (acc : ℕ × List TopologyHint) (mask : BitMask) : ℕ × List TopologyHint :=
  let devsIn := devicesInMask allDevices mask
  let minA :=
    if request ≤ (devsIn : ℤ) ∧ mask.card < acc.1 then mask.card else acc.1
  if reusable.any (fun d => d.topology.isSome && !anySet mask (nodeIds d.topology)) then
    (minA, acc.2)
  else
    let numMatching : ℕ :=
      (reusable.filter (fun d => d.topology.isSome)).length
        + (available.filter (fun d => anySet mask (nodeIds d.topology))).length
    if (numMatching : ℤ) < request then (minA, acc.2)
    else (minA, acc.2 ++ [mkDeviceHint gate allDevices mask request])

/-- `ManagerImpl.generateDeviceTopologyHints`: iterate all NUMA masks,
emit a hint for each satisfiable mask, then mark as preferred exactly the
hints whose affinity cardinality equals the final `minAffinitySize`. -/
def generateDeviceTopologyHints (gate : Bool) (allDevices : List Device)
    (numaNodes : List ℕ) (available reusable : List Device)
    (request : ℤ) : List TopologyHint :=
  let folded :=
    (iterateBitMasks numaNodes).foldl
      (genStep gate allDevices available reusable request)
      (numaNodes.length, [])
  folded.2.map (fun h =>
    if (h.NUMANodeAffinity.map Finset.card).getD 0 = folded.1 then
      { h with Preferred := true }
    else h)

/-- The running-minimum `minAffinitySize` of `generateDeviceTopologyHints`,
as a standalone fold: the least cardinality of an enumerated mask holding at
least `request` devices, initialized to the NUMA node count. -/
def minAffinitySizeDev (allDevices : List Device) (numaNodes : List ℕ)
    (request : ℤ) : ℕ :=
  (iterateBitMasks numaNodes).foldl
    (fun acc mask =>
      if request ≤ (devicesInMask allDevices mask : ℤ) ∧ mask.card < acc then
        mask.card
      else acc)
    numaNodes.length

/-- The `providersHints` argument of a policy merge: one association map per
hint provider, from resource name to hint list (Go `[]map[string][]TopologyHint`). -/
abbrev ProvidersHints := List (List (String × List TopologyHint))

/-- A hint with no enhanced fields, as built by the classic merge paths. -/
def mkPlainHint (aff : Option BitMask) (pref : Bool) : TopologyHint :=
  { NUMANodeAffinity := aff, Preferred := pref,
    HopCount := none, Bandwidth := none, Distance := none, Score := none }

/-- `distributedPolicy.canAdmitPodResult`: any hint with a non-nil NUMA
affinity is admitted. -/
def canAdmitPodResult (hint : TopologyHint) : Bool :=
  hint.NUMANodeAffinity.isSome

/-- `distributedPolicy.hasMultipleResourceTypes`: more than one distinct
resource name occurs across all providers. -/
def hasMultipleResourceTypes (ph : ProvidersHints) : Bool :=
  decide (1 < ((ph.flatMap (fun m => m.map Prod.fst)).dedup).length)

/-- Modelled from the spec: `filter_providers_hints` (§4.5) — per resource,
drop any hint whose affinity is neither don't-care nor intersects the
default mask, and drop the non-preferred hints when a preferred hint
remains for that resource. -/
def filterProvidersHints (numaInfo : NUMAInfo) (ph : ProvidersHints) :
    List (List TopologyHint) :=
  ph.flatMap (fun providerMap => providerMap.map (fun rh =>
    let kept := rh.2.filter (fun h =>
      match h.NUMANodeAffinity with
      | none => true
      | some m => (m ∩ numaInfo.DefaultAffinityMask) ≠ ∅)
    if kept.any (fun h => h.Preferred) then kept.filter (fun h => h.Preferred)
    else kept))

/-- Modelled from the spec: permutation merge of one cross-product tuple
(§4.2 step B) — conjunction of affinities (don't-care contributing the
default mask) and of preferred flags. -/
def mergeTupleClassic (defaultMask : BitMask) (tuple : List TopologyHint) :
    BitMask × Bool :=
  tuple.foldl
    (fun acc h => (acc.1 ∩ (h.NUMANodeAffinity.getD defaultMask), acc.2 && h.Preferred))
    (defaultMask, true)

/-- Modelled from the spec: `min_affinity_size` of the merger (§4.2 step D) —
the smallest bit count among the preferred input hints (or among all input
hints when none is preferred), defaulting to the full-mask size. -/
def minAffinityMerge (defaultMask : BitMask) (lists : List (List TopologyHint)) : ℕ :=
  let counts := fun (hs : List TopologyHint) =>
    hs.filterMap (fun h => h.NUMANodeAffinity.map Finset.card)
  let all := lists.flatten
  let pref := counts (all.filter (fun h => h.Preferred))
  let source := if pref.isEmpty then counts all else pref
  source.foldl min defaultMask.card

/-- True when the hint's affinity spans more than one NUMA node. -/
def multiNode (h : TopologyHint) : Bool :=
  match h.NUMANodeAffinity with
  | some m => decide (1 < m.card)
  | none => false

/-- Modelled from the spec: the merger's candidate comparator.  Without the
`distributed_merging` flag this is `TopologyHint.LessThan`; with it, within
a preferred band, multi-node candidates are ranked by score alone (§4.3). -/
def candLess (gate distributedMerging : Bool) (a b : TopologyHint) : Option Bool :=
  if distributedMerging && (a.Preferred == b.Preferred) && multiNode a && multiNode b then
    some ((scoreDecide a b).getD ((TopologyHint.LessThan gate a b).getD false))
  else TopologyHint.LessThan gate a b

/-- Modelled from the spec: candidate selection (§4.2 step C) — fold the
comparator over the merged candidates, seeded with the default-mask
non-preferred sentinel.  A `none` comparison (a would-be panic) aborts. -/
def selectBest (gate distributedMerging : Bool) (candidates : List TopologyHint)
    (seed : TopologyHint) : Option TopologyHint :=
  candidates.foldl
    (fun acc c => acc.bind (fun best =>
      (candLess gate distributedMerging c best).map (fun r => if r then c else best)))
    (some seed)

/-- Modelled from the spec: the classic `HintMerger.Merge` (§4.2) over the
already-filtered per-resource hint lists. -/
def classicMerge (gate : Bool) (numaInfo : NUMAInfo)
    (lists : List (List TopologyHint)) : Option TopologyHint :=
  let dm := numaInfo.DefaultAffinityMask
  let seed := mkPlainHint (some dm) false
  if lists.isEmpty then some seed
  else
    let minSize := minAffinityMerge dm lists
    let cands :=
      ((lists.sections.map (mergeTupleClassic dm)).filter (fun c => c.1 ≠ ∅)).map
        (fun c => mkPlainHint (some c.1) (c.2 && decide (c.1.card ≤ minSize)))
    selectBest gate false cands seed

/-- Pairwise combination of one optional enhanced field across a tuple: an
absent side propagates the other side; all-absent stays absent (§4.3). -/
def comboField {α : Type} (f : α → α → α) : Option α → Option α → Option α
  | some x, some y => some (f x y)
  | some x, none => some x
  | none, other => other

/-- One combination step of the enhanced permutation merge (§4.3). -/
def enhStep (defaultMask : BitMask) (acc h : TopologyHint) : TopologyHint :=
  { NUMANodeAffinity :=
      some ((acc.NUMANodeAffinity.getD defaultMask) ∩ (h.NUMANodeAffinity.getD defaultMask)),
    Preferred := acc.Preferred && h.Preferred,
    HopCount := comboField max acc.HopCount h.HopCount,
    Bandwidth := comboField min acc.Bandwidth h.Bandwidth,
    Distance := comboField max acc.Distance h.Distance,
    Score := comboField (· + ·) acc.Score h.Score }

/-- Modelled from the spec: enhanced permutation merge of one tuple (§4.3) —
affinity and preferred as in the classic merge; `hop_count = max`,
`distance = max`, `bandwidth = min`, `score = sum`. -/
def mergeTupleEnhanced (defaultMask : BitMask) (tuple : List TopologyHint) :
    TopologyHint :=
  tuple.foldl (enhStep defaultMask) (mkPlainHint (some defaultMask) true)

/-- The per-resource hint lists of a `providersHints` argument, in provider
order (one inner list per map entry). -/
def providerLists (ph : ProvidersHints) : List (List TopologyHint) :=
  ph.flatMap (fun m => m.map Prod.snd)

/-- Modelled from the spec: `EnhancedHintMerger.Merge` (§4.3), over the raw
providers' hints (the enhanced policy paths do not pre-filter), with the
`distributed_merging` comparator flag. -/
def enhancedMergeOpt (gate distributedMerging : Bool) (numaInfo : NUMAInfo)
    (ph : ProvidersHints) : Option TopologyHint :=
  let dm := numaInfo.DefaultAffinityMask
  let seed := mkPlainHint (some dm) false
  if (providerLists ph).isEmpty then some seed
  else
    let minSize := minAffinityMerge dm (providerLists ph)
    let cands :=
      (((providerLists ph).sections.map (mergeTupleEnhanced dm)).filter
          (fun c => (c.NUMANodeAffinity.getD dm) ≠ ∅)).map
        (fun c =>
          { c with Preferred :=
              c.Preferred && decide ((c.NUMANodeAffinity.getD dm).card ≤ minSize) })
    selectBest gate distributedMerging cands seed

/-- The hints of a `providersHints` argument that carry a non-nil NUMA
affinity — the hints `createDistributedHint` aggregates over. -/
def affineHints (ph : ProvidersHints) : List TopologyHint :=
  (ph.flatMap (fun m => m.flatMap Prod.snd)).filter
    (fun h => h.NUMANodeAffinity.isSome)

/-- `distributedPolicy.createDistributedHint`: a hint spanning the default
affinity mask, preferred iff every hint with a non-nil affinity is
preferred; when the gate is on and at least one such hint exists, the
enhanced fields are the averages of the inputs' metrics plus a 5.0 score
penalty per NUMA node beyond the first.  The Go `int` averages truncate
toward zero (`Int.tdiv`). -/
def createDistributedHint (gate : Bool) (numaInfo : NUMAInfo)
    (ph : ProvidersHints) : TopologyHint :=
  let distributedAffinity := numaInfo.DefaultAffinityMask
  let affine := affineHints ph
  let hintCount := affine.length
  let allPreferred := affine.all (fun h => h.Preferred)
  let totalHopCount : ℤ :=
    (affine.map (fun h =>
      if gate && h.hasEnhancedFields then h.GetHopCount gate else 0)).sum
  let totalDistance : ℤ :=
    (affine.map (fun h =>
      if gate && h.hasEnhancedFields then h.GetDistance gate else 0)).sum
  let totalBandwidth : ℚ :=
    (affine.map (fun h =>
      if gate && h.hasEnhancedFields then h.GetBandwidth gate else 0)).sum
  let totalScore : ℚ :=
    (affine.map (fun h =>
      if gate && h.hasEnhancedFields then h.GetScore gate else 0)).sum
  let base : TopologyHint :=
    { NUMANodeAffinity := some distributedAffinity, Preferred := allPreferred,
      HopCount := none, Bandwidth := none, Distance := none, Score := none }
  if gate && decide (0 < hintCount) then
    let distributionPenalty : ℚ := ((distributedAffinity.card : ℚ) - 1) * 5
    { base with
        HopCount := some (Int.tdiv totalHopCount hintCount),
        Distance := some (Int.tdiv totalDistance hintCount),
        Bandwidth := some (totalBandwidth / (hintCount : ℚ)),
        Score := some (totalScore / (hintCount : ℚ) + distributionPenalty) }
  else base

/-- `distributedPolicy.applyDistributionLogic`: compute the base enhanced
merge (with distributed merging), then — on multi-node machines — prefer
the distributed hint whenever it spans more than one NUMA node. -/
def applyDistributionLogic (gate : Bool) (numaInfo : NUMAInfo)
    (ph : ProvidersHints) : Option TopologyHint :=
  (enhancedMergeOpt gate true numaInfo ph).map (fun baseHint =>
    if numaInfo.Nodes.length ≤ 1 then baseHint
    else
      let distributedHint := createDistributedHint gate numaInfo ph
      match distributedHint.NUMANodeAffinity with
      | some m => if 1 < m.card then distributedHint else baseHint
      | none => baseHint)

/-- `distributedPolicy.Merge`: fall back to the filtered best-effort merge
when the gate is off; use the plain enhanced merge for a single resource
type; otherwise apply the distribution logic.  The admit flag is true iff
the resulting hint's affinity is non-nil. -/
def MergeDistributed (gate : Bool) (numaInfo : NUMAInfo) (ph : ProvidersHints) :
    Option (TopologyHint × Bool) :=
  if !gate then
    (classicMerge gate numaInfo (filterProvidersHints numaInfo ph)).map
      (fun bestHint => (bestHint, bestHint.NUMANodeAffinity.isSome))
  else if !hasMultipleResourceTypes ph then
    (enhancedMergeOpt gate false numaInfo ph).map
      (fun bestHint => (bestHint, canAdmitPodResult bestHint))
  else
    (applyDistributionLogic gate numaInfo ph).map
      (fun distributedHint => (distributedHint, canAdmitPodResult distributedHint))

/-- Follows the claim's words (not the source): the device-utilization
denominator `devices_in_mask` counting each device whose topology intersects
the mask exactly once — the same count as the generator's `devicesInMask`
min-size pass. -/
def specUtilization (allDevices : List Device) (mask : BitMask) (request : ℤ) : ℚ :=
  min 1 ((request : ℚ) / (devicesInMask allDevices mask : ℚ))

/-- Follows the claim's words (not the source): the claimed device score
formula, with the once-per-device `devices_in_mask` denominator. -/
def specScore (allDevices : List Device) (mask : BitMask) (request : ℤ) : ℚ :=
  let hop : ℚ := max ((mask.card : ℚ) - 1) 0
  let dist : ℚ := if mask.card = 1 then 10 else 10 + 20 * hop
  max 0 (2 * (dist - 10) + 12 * hop - 10 * (1 - specUtilization allDevices mask request))

/-- A device declaring topology on two NUMA nodes (used to exercise the
per-node counting of `calculateEnhancedTopologyFields`). -/
def dMulti : Device := ⟨"d", some [0, 1]⟩

/-- A device on NUMA node 0. -/
def devA : Device := ⟨"d0", some [0]⟩

/-- A device on NUMA node 1. -/
def devB : Device := ⟨"d1", some [1]⟩

/-- A two-node machine. -/
def numaTwo : NUMAInfo := ⟨[0, 1]⟩

/-- An enhanced hint preferring node 0. -/
def hintR1 : TopologyHint := ⟨some {0}, true, some 1, some 100, some 20, some 50⟩

/-- An enhanced hint preferring node 1. -/
def hintR2 : TopologyHint := ⟨some {1}, true, some 2, some 80, some 30, some 70⟩

/-- Two providers offering two distinct resource types with enhanced hints. -/
def phTwoRes : ProvidersHints := [[("resource1", [hintR1])], [("resource2", [hintR2])]]

/-- Two providers offering two distinct resource types with plain hints
(no enhanced fields). -/
def phPlain : ProvidersHints :=
  [[("r1", [mkPlainHint (some {0}) true])], [("r2", [mkPlainHint (some {1}) true])]]

/-- The emission condition of `generateDeviceTopologyHints` for one mask:
every topology-bearing reusable device intersects the mask, and the count of
topology-bearing reusable devices plus available devices intersecting the
mask is at least the request. -/
def emitsMask (available reusable : List Device) (request : ℤ) (mask : BitMask) : Prop :=
  (∀ d ∈ reusable, d.topology.isSome = true → anySet mask (nodeIds d.topology) = true) ∧
  request ≤ (((reusable.filter (fun d => d.topology.isSome)).length
      + (available.filter (fun d => anySet mask (nodeIds d.topology))).length : ℕ) : ℤ)

instance (available reusable : List Device) (request : ℤ) (mask : BitMask) :
    Decidable (emitsMask available reusable request mask) := by
  unfold emitsMask; infer_instance

/-- Follows the claim's words: `hop_count = |M| − 1` clamped at 0. -/
def claimHopCount (m : BitMask) : ℤ :=
  max ((m.card : ℤ) - 1) 0

/-- Follows the claim's words: `distance = 10` for single-node masks and
`10 + 20·hop_count` otherwise. -/
def claimDistance (m : BitMask) : ℤ :=
  if m.card = 1 then 10 else 10 + 20 * claimHopCount m

/-- Follows the claim's words: `bandwidth = max(10.0, 80.0·(1 − 0.4·hop_count))`. -/
def claimBandwidth (m : BitMask) : ℚ :=
  max 10 (80 * (1 - (2 / 5) * ((claimHopCount m : ℤ) : ℚ)))

/-- The claimed utilization with the amended denominator: the per-(device,
topology-node) count `availableDevicesCount` the code actually computes. -/
def claimUtilization (allDevices : List Device) (m : BitMask) (request : ℤ) : ℚ :=
  min 1 ((request : ℚ) / (availableDevicesCount allDevices (getBits m) : ℚ))

/-- Follows the claim's words for the score formula,
`score = max(0, 2·(distance−10) + 12·hop_count − 10·(1 − utilization))`,
over the amended utilization. -/
def claimScore (allDevices : List Device) (m : BitMask) (request : ℤ) : ℚ :=
  max 0 (2 * ((claimDistance m : ℚ) - 10) + 12 * ((claimHopCount m : ℤ) : ℚ)
    - 10 * (1 - claimUtilization allDevices m request))

/-- The `{0,1}` hint emitted in the N=4 scenario (two devices on nodes 0
and 1, request 2, gate on). -/
def hintScen : TopologyHint :=
  ⟨some {0, 1}, true, some 1, some 48, some 30, some 52⟩

/-- The `{0,1}` hint emitted for a single available device spanning NUMA
nodes 0 and 1 (request 1, gate on): its score divides by the pair count 2,
not by the device count 1. -/
def hintCex : TopologyHint :=
  ⟨some {0, 1}, false, some 1, some 48, some 30, some 47⟩

/-! ## Ordering lemmas -/

lemma decide_flip {α : Type} [LinearOrder α] (x y : α) (h : x ≠ y) :
    decide (y < x) = !decide (x < y) := by
  rcases lt_or_gt_of_ne h with hlt | hgt
  · simp [hlt, lt_asymm hlt]
  · simp [hgt, lt_asymm hgt]

lemma lexLt_asymm (s : List ℕ) : ∀ t : List ℕ,
    lexLt s t = true → lexLt t s = true → False := by
  induction s with
  | nil =>
    intro t h1 h2
    cases t with
    | nil => simp [lexLt] at h1
    | cons b bs => simp [lexLt] at h2
  | cons a as ih =>
    intro t h1 h2
    cases t with
    | nil => simp [lexLt] at h1
    | cons b bs =>
      simp only [lexLt] at h1 h2
      by_cases hab : a < b
      · rw [if_neg (lt_asymm hab), if_pos hab] at h2
        exact absurd h2 (by simp)
      · by_cases hba : b < a
        · rw [if_neg hab, if_pos hba] at h1
          exact absurd h1 (by simp)
        · rw [if_neg hab, if_neg hba] at h1
          rw [if_neg hba, if_neg hab] at h2
          exact ih bs h1 h2

lemma isNarrowerThan_asymm (a b : BitMask) (h1 : isNarrowerThan a b = true)
    (h2 : isNarrowerThan b a = true) : False := by
  unfold isNarrowerThan at h1 h2
  by_cases hab : a ⊂ b
  · have hnba : ¬ b ⊂ a := fun hba => ssubset_irrefl a (hab.trans hba)
    rw [if_neg hnba, if_pos hab] at h2
    exact absurd h2 (by simp)
  · by_cases hba : b ⊂ a
    · rw [if_neg hab, if_pos hba] at h1
      exact absurd h1 (by simp)
    · rw [if_neg hab, if_neg hba] at h1
      rw [if_neg hba, if_neg hab] at h2
      exact lexLt_asymm _ _ h1 h2

lemma scoreDecide_swap (a b : TopologyHint) :
    scoreDecide b a = (scoreDecide a b).map (fun r => !r) := by
  rcases ha : a.Score with _ | x <;> rcases hb : b.Score with _ | y <;>
    simp [scoreDecide, ha, hb]
  by_cases hxy : x = y
  · simp [hxy]
  · simp [hxy, Ne.symm hxy, decide_flip x y hxy]

lemma hopDecide_swap (a b : TopologyHint) :
    hopDecide b a = (hopDecide a b).map (fun r => !r) := by
  rcases ha : a.HopCount with _ | x <;> rcases hb : b.HopCount with _ | y <;>
    simp [hopDecide, ha, hb]
  by_cases hxy : x = y
  · simp [hxy]
  · simp [hxy, Ne.symm hxy, decide_flip x y hxy]

lemma distDecide_swap (a b : TopologyHint) :
    distDecide b a = (distDecide a b).map (fun r => !r) := by
  rcases ha : a.Distance with _ | x <;> rcases hb : b.Distance with _ | y <;>
    simp [distDecide, ha, hb]
  by_cases hxy : x = y
  · simp [hxy]
  · simp [hxy, Ne.symm hxy, decide_flip x y hxy]

lemma bwDecide_swap (a b : TopologyHint) :
    bwDecide b a = (bwDecide a b).map (fun r => !r) := by
  rcases ha : a.Bandwidth with _ | x <;> rcases hb : b.Bandwidth with _ | y <;>
    simp [bwDecide, ha, hb]
  by_cases hxy : x = y
  · simp [hxy]
  · simp [hxy, Ne.symm hxy, decide_flip y x (Ne.symm hxy)]

lemma enhancedDecide_swap (a b : TopologyHint) :
    enhancedDecide b a = (enhancedDecide a b).map (fun r => !r) := by
  unfold enhancedDecide
  rw [scoreDecide_swap, hopDecide_swap, distDecide_swap, bwDecide_swap]
  cases scoreDecide a b <;> cases hopDecide a b <;> cases distDecide a b <;>
    cases bwDecide a b <;> simp

/-- Claim C6: antisymmetry of the hint ordering — for any two hints with
non-nil affinities, under either feature-gate state, `a.LessThan(b)` and
`b.LessThan(a)` are never both true. -/
theorem claim_C6_lessThan_antisymm (gate : Bool) (a b : TopologyHint)
    (ma mb : BitMask) (ha : a.NUMANodeAffinity = some ma)
    (hb : b.NUMANodeAffinity = some mb) :
    ¬(TopologyHint.LessThan gate a b = some true ∧
      TopologyHint.LessThan gate b a = some true) := by
  rintro ⟨h1, h2⟩
  unfold TopologyHint.LessThan at h1 h2
  by_cases hpref : a.Preferred = b.Preferred
  · rw [if_neg (by simp [hpref]), ha, hb] at h1
    rw [if_neg (by simp [hpref]), ha, hb] at h2
    rw [Option.some_bind, Option.map_some', Option.some.injEq] at h1 h2
    simp only [] at h1 h2
    rw [Bool.or_comm b.hasEnhancedFields a.hasEnhancedFields] at h2
    by_cases hc : (gate && (a.hasEnhancedFields || b.hasEnhancedFields)) = true
    · rw [if_pos hc] at h1 h2
      rw [enhancedDecide_swap] at h2
      rcases hED : enhancedDecide a b with _ | r
      · rw [hED] at h1 h2
        simp only [Option.map_none', Option.getD_none] at h1 h2
        exact isNarrowerThan_asymm ma mb h1 h2
      · rw [hED] at h1 h2
        simp only [Option.map_some', Option.getD_some] at h1 h2
        rw [h1] at h2
        exact absurd h2 (by simp)
    · rw [if_neg hc] at h1 h2
      exact isNarrowerThan_asymm ma mb h1 h2
  · rw [if_pos hpref] at h1
    rw [if_pos (Ne.symm hpref)] at h2
    simp only [Option.some.injEq] at h1 h2
    exact hpref (h1.trans h2.symm)

/-- Witness for C6 at a concrete pair of enhanced hints. -/
theorem claim_C6_witness :
    ¬(TopologyHint.LessThan true hintR1 hintR2 = some true ∧
      TopologyHint.LessThan true hintR2 hintR1 = some true) :=
  claim_C6_lessThan_antisymm true hintR1 hintR2 {0} {1} rfl rfl

/-! ## Getter and equality claims -/

/-- Claim C8: getter defaults under absence — whenever the gate is off or
the corresponding field is absent, `GetDistance` returns exactly 10,
`GetHopCount` returns 0, `GetBandwidth` returns 0.0 and `GetScore` returns
0.0; otherwise each getter returns the stored field value. -/
theorem claim_C8_getter_defaults (gate : Bool) (th : TopologyHint) :
    ((gate = false ∨ th.HopCount = none) → th.GetHopCount gate = 0) ∧
    (∀ v : ℤ, gate = true → th.HopCount = some v → th.GetHopCount gate = v) ∧
    ((gate = false ∨ th.Bandwidth = none) → th.GetBandwidth gate = 0) ∧
    (∀ v : ℚ, gate = true → th.Bandwidth = some v → th.GetBandwidth gate = v) ∧
    ((gate = false ∨ th.Distance = none) → th.GetDistance gate = 10) ∧
    (∀ v : ℤ, gate = true → th.Distance = some v → th.GetDistance gate = v) ∧
    ((gate = false ∨ th.Score = none) → th.GetScore gate = 0) ∧
    (∀ v : ℚ, gate = true → th.Score = some v → th.GetScore gate = v) := by
  refine ⟨?_, ?_, ?_, ?_, ?_, ?_, ?_, ?_⟩
  · rintro (h | h) <;> cases gate <;> simp_all [TopologyHint.GetHopCount]
  · intro v hg hf; simp [TopologyHint.GetHopCount, hg, hf]
  · rintro (h | h) <;> cases gate <;> simp_all [TopologyHint.GetBandwidth]
  · intro v hg hf; simp [TopologyHint.GetBandwidth, hg, hf]
  · rintro (h | h) <;> cases gate <;> simp_all [TopologyHint.GetDistance]
  · intro v hg hf; simp [TopologyHint.GetDistance, hg, hf]
  · rintro (h | h) <;> cases gate <;> simp_all [TopologyHint.GetScore]
  · intro v hg hf; simp [TopologyHint.GetScore, hg, hf]

/-- Witness for C8: defaults with the gate off, stored values with it on. -/
theorem claim_C8_witness :
    TopologyHint.GetDistance false hintR1 = 10 ∧
    TopologyHint.GetScore true hintR1 = 50 :=
  ⟨(claim_C8_getter_defaults false hintR1).2.2.2.2.1 (Or.inl rfl),
   (claim_C8_getter_defaults true hintR1).2.2.2.2.2.2.2 50 rfl rfl⟩

lemma equalIntPointer_refl (a : Option ℤ) : equalIntPointer a a = true := by
  rcases a with _ | x <;> simp [equalIntPointer]

lemma equalFloat64Pointer_refl (a : Option ℚ) : equalFloat64Pointer a a = true := by
  rcases a with _ | x <;> simp [equalFloat64Pointer]

lemma equalIntPointer_swap (a b : Option ℤ) :
    equalIntPointer a b = equalIntPointer b a := by
  rcases a with _ | x <;> rcases b with _ | y <;> simp [equalIntPointer]
  exact eq_comm

lemma equalFloat64Pointer_swap (a b : Option ℚ) :
    equalFloat64Pointer a b = equalFloat64Pointer b a := by
  rcases a with _ | x <;> rcases b with _ | y <;> simp [equalFloat64Pointer]
  exact eq_comm

lemma isEqual_refl (h : TopologyHint) : TopologyHint.IsEqual h h = true := by
  unfold TopologyHint.IsEqual
  rw [if_neg (by simp)]
  rcases haff : h.NUMANodeAffinity with _ | m <;>
    simp [bmIsEqual, equalIntPointer_refl, equalFloat64Pointer_refl]

lemma isEqual_symm (a b : TopologyHint) :
    TopologyHint.IsEqual a b = TopologyHint.IsEqual b a := by
  unfold TopologyHint.IsEqual
  by_cases hp : a.Preferred = b.Preferred
  · rw [if_neg (by simp [hp]), if_neg (by simp [hp])]
    rcases ha : a.NUMANodeAffinity with _ | ma <;>
      rcases hb : b.NUMANodeAffinity with _ | mb
    · simp [equalIntPointer_swap a.HopCount b.HopCount,
        equalFloat64Pointer_swap a.Bandwidth b.Bandwidth,
        equalIntPointer_swap a.Distance b.Distance,
        equalFloat64Pointer_swap a.Score b.Score]
    · rfl
    · rfl
    · by_cases hm : ma = mb
      · subst hm
        simp [bmIsEqual, equalIntPointer_swap a.HopCount b.HopCount,
          equalFloat64Pointer_swap a.Bandwidth b.Bandwidth,
          equalIntPointer_swap a.Distance b.Distance,
          equalFloat64Pointer_swap a.Score b.Score]
      · simp [bmIsEqual, hm, Ne.symm hm]
  · rw [if_pos hp, if_pos (Ne.symm hp)]

/-- Claim C9: hint equality is reflexive (including with every field
absent) and symmetric, with nil-safe field comparison: two absent fields
are equal and an absent field is unequal to any present field. -/
theorem claim_C9_isEqual_refl_symm :
    (∀ h : TopologyHint, TopologyHint.IsEqual h h = true) ∧
    (∀ a b : TopologyHint, TopologyHint.IsEqual a b = TopologyHint.IsEqual b a) ∧
    (∀ x : ℤ, equalIntPointer none (some x) = false ∧ equalIntPointer (some x) none = false) ∧
    (∀ q : ℚ, equalFloat64Pointer none (some q) = false ∧ equalFloat64Pointer (some q) none = false) ∧
    equalIntPointer none none = true ∧ equalFloat64Pointer none none = true :=
  ⟨isEqual_refl, isEqual_symm, fun _ => ⟨rfl, rfl⟩, fun _ => ⟨rfl, rfl⟩, rfl, rfl⟩

/-! ## Totality of the merge paths (claim C1) -/

/-- Claim C1 counterexample: `LessThan` on a pair of hints whose
`NUMANodeAffinity` is absent and whose `Preferred` flags agree dereferences
the nil affinity interface — a panic, modelled by `none`. -/
theorem claim_C1_counterexample :
    TopologyHint.LessThan false (mkPlainHint none false) (mkPlainHint none false) = none := rfl

lemma lessThan_isSome (gate : Bool) (a b : TopologyHint)
    (h : a.Preferred ≠ b.Preferred ∨
         (a.NUMANodeAffinity.isSome ∧ b.NUMANodeAffinity.isSome)) :
    (TopologyHint.LessThan gate a b).isSome := by
  unfold TopologyHint.LessThan
  by_cases hp : a.Preferred ≠ b.Preferred
  · rw [if_pos hp]; rfl
  · rw [if_neg hp]
    rcases h with h | ⟨h1, h2⟩
    · exact absurd h hp
    · rcases Option.isSome_iff_exists.mp h1 with ⟨ma, hma⟩
      rcases Option.isSome_iff_exists.mp h2 with ⟨mb, hmb⟩
      rw [hma, hmb, Option.some_bind, Option.map_some']
      rfl

lemma candLess_isSome (gate dm : Bool) (a b : TopologyHint)
    (h1 : a.NUMANodeAffinity.isSome) (h2 : b.NUMANodeAffinity.isSome) :
    (candLess gate dm a b).isSome := by
  unfold candLess
  split
  · rfl
  · exact lessThan_isSome gate a b (Or.inr ⟨h1, h2⟩)

lemma selectBest_isSome (gate dm : Bool) :
    ∀ (cands : List TopologyHint) (seed : TopologyHint),
      seed.NUMANodeAffinity.isSome → (∀ c ∈ cands, c.NUMANodeAffinity.isSome) →
      ∃ best, selectBest gate dm cands seed = some best ∧
        best.NUMANodeAffinity.isSome := by
  intro cands
  induction cands with
  | nil => intro seed hs _; exact ⟨seed, rfl, hs⟩
  | cons c cs ih =>
    intro seed hs hc
    have hcc := hc c (List.mem_cons_self c cs)
    have hstep : (candLess gate dm c seed).isSome := candLess_isSome gate dm c seed hcc hs
    rcases Option.isSome_iff_exists.mp hstep with ⟨r, hr⟩
    have hfold : selectBest gate dm (c :: cs) seed
        = selectBest gate dm cs (if r then c else seed) := by
      unfold selectBest
      rw [List.foldl_cons]
      congr 1
      rw [Option.some_bind, hr, Option.map_some']
    rw [hfold]
    refine ih (if r then c else seed) ?_ ?_
    · cases r <;> simpa using (by first | exact hs | exact hcc)
    · intro x hx; exact hc x (List.mem_cons_of_mem c hx)

lemma classicMerge_isSome (gate : Bool) (numaInfo : NUMAInfo)
    (lists : List (List TopologyHint)) :
    ∃ best, classicMerge gate numaInfo lists = some best ∧
      best.NUMANodeAffinity.isSome := by
  unfold classicMerge
  split
  · exact ⟨_, rfl, rfl⟩
  · apply selectBest_isSome
    · rfl
    · intro c hcmem
      rcases List.mem_map.mp hcmem with ⟨p, _, rfl⟩
      rfl

lemma foldl_enhStep_aff_isSome (dm : BitMask) :
    ∀ (tuple : List TopologyHint) (init : TopologyHint),
      init.NUMANodeAffinity.isSome →
      (tuple.foldl (enhStep dm) init).NUMANodeAffinity.isSome := by
  intro tuple
  induction tuple with
  | nil => intro init h; exact h
  | cons x xs ih =>
    intro init _
    rw [List.foldl_cons]
    exact ih (enhStep dm init x) rfl

lemma mergeTupleEnhanced_aff_isSome (dm : BitMask) (tuple : List TopologyHint) :
    (mergeTupleEnhanced dm tuple).NUMANodeAffinity.isSome :=
  foldl_enhStep_aff_isSome dm tuple (mkPlainHint (some dm) true) rfl

lemma enhancedMergeOpt_isSome (gate dmFlag : Bool) (numaInfo : NUMAInfo)
    (ph : ProvidersHints) :
    ∃ best, enhancedMergeOpt gate dmFlag numaInfo ph = some best ∧
      best.NUMANodeAffinity.isSome := by
  unfold enhancedMergeOpt
  split
  · exact ⟨_, rfl, rfl⟩
  · apply selectBest_isSome
    · rfl
    · intro c hcmem
      rcases List.mem_map.mp hcmem with ⟨y, hy, rfl⟩
      rcases List.mem_filter.mp hy with ⟨hy2, _⟩
      rcases List.mem_map.mp hy2 with ⟨tuple, _, rfl⟩
      exact mergeTupleEnhanced_aff_isSome _ tuple

lemma applyDistributionLogic_isSome (gate : Bool) (numaInfo : NUMAInfo)
    (ph : ProvidersHints) :
    ∃ h, applyDistributionLogic gate numaInfo ph = some h ∧
      h.NUMANodeAffinity.isSome := by
  unfold applyDistributionLogic
  rcases enhancedMergeOpt_isSome gate true numaInfo ph with ⟨base, hbase, haff⟩
  rw [hbase, Option.map_some']
  refine ⟨_, rfl, ?_⟩
  dsimp only
  split
  · exact haff
  · rcases hdh : (createDistributedHint gate numaInfo ph).NUMANodeAffinity with _ | m
    · simp only [hdh]; exact haff
    · simp only [hdh]
      split
      · simp [hdh]
      · exact haff

lemma mergeDistributed_always_admits (gate : Bool) (numaInfo : NUMAInfo)
    (ph : ProvidersHints) :
    (MergeDistributed gate numaInfo ph).map Prod.snd = some true := by
  unfold MergeDistributed
  split
  · rcases classicMerge_isSome gate numaInfo (filterProvidersHints numaInfo ph) with
      ⟨b, hb, haff⟩
    rw [hb]
    simp [haff]
  · split
    · rcases enhancedMergeOpt_isSome gate false numaInfo ph with ⟨b, hb, haff⟩
      rw [hb]
      simp [canAdmitPodResult, haff]
    · rcases applyDistributionLogic_isSome gate numaInfo ph with ⟨b, hb, haff⟩
      rw [hb]
      simp [canAdmitPodResult, haff]

lemma mergeDistributed_isSome (gate : Bool) (numaInfo : NUMAInfo)
    (ph : ProvidersHints) : (MergeDistributed gate numaInfo ph).isSome := by
  have h := mergeDistributed_always_admits gate numaInfo ph
  rcases ho : MergeDistributed gate numaInfo ph with _ | p
  · rw [ho] at h; simp at h
  · rfl

/-- Claim C1 (amended): `TopologyHint.IsEqual` is total on all hints and
`distributedPolicy.Merge` is total on all providers' hint lists (neither
panics), and `TopologyHint.LessThan` is total on every pair whose `Preferred`
flags differ or whose `NUMANodeAffinity` masks are both present; on a pair
with equal `Preferred` flags and an absent affinity, `LessThan` dereferences
the nil affinity and panics (see the counterexample). -/
theorem claim_C1_amended_totality :
    (∀ (gate : Bool) (a b : TopologyHint),
        a.Preferred ≠ b.Preferred ∨
          (a.NUMANodeAffinity.isSome ∧ b.NUMANodeAffinity.isSome) →
        (TopologyHint.LessThan gate a b).isSome) ∧
    (∀ a b : TopologyHint,
        TopologyHint.IsEqual a b = true ∨ TopologyHint.IsEqual a b = false) ∧
    (∀ (gate : Bool) (numaInfo : NUMAInfo) (ph : ProvidersHints),
        (MergeDistributed gate numaInfo ph).isSome) :=
  ⟨lessThan_isSome,
   fun a b => by cases h : TopologyHint.IsEqual a b <;> simp,
   mergeDistributed_isSome⟩

/-- Witness for C1: `LessThan` is total at a concrete pair with one absent
affinity but differing `Preferred` flags, and `Merge` is total at a concrete
providers' hint list containing a nil-affinity hint. -/
theorem claim_C1_witness :
    (TopologyHint.LessThan true hintR1 (mkPlainHint none false)).isSome ∧
    (MergeDistributed true numaTwo [[("r1", [mkPlainHint none true])]]).isSome :=
  ⟨claim_C1_amended_totality.1 true hintR1 (mkPlainHint none false) (Or.inl (by decide)),
   claim_C1_amended_totality.2.2 true numaTwo [[("r1", [mkPlainHint none true])]]⟩

/-! ## Distributed-policy claims -/

/-- Claim C5: two-run backward compatibility — on any input whose hints
carry no enhanced fields, running `distributedPolicy.Merge` with the gate
off and with it on yields the same admission boolean (the policy in fact
admits every input under either gate state). -/
theorem claim_C5_backward_compat (numaInfo : NUMAInfo) (ph : ProvidersHints)
    (_hplain : ∀ h ∈ ph.flatMap (fun m => m.flatMap Prod.snd),
      h.hasEnhancedFields = false) :
    (MergeDistributed false numaInfo ph).map Prod.snd
      = (MergeDistributed true numaInfo ph).map Prod.snd := by
  rw [mergeDistributed_always_admits, mergeDistributed_always_admits]

/-- Witness for C5 at a concrete enhanced-field-free input. -/
theorem claim_C5_witness :
    (MergeDistributed false numaTwo phPlain).map Prod.snd
      = (MergeDistributed true numaTwo phPlain).map Prod.snd :=
  claim_C5_backward_compat numaTwo phPlain (by decide)

lemma createDistributedHint_aff (gate : Bool) (numaInfo : NUMAInfo)
    (ph : ProvidersHints) :
    (createDistributedHint gate numaInfo ph).NUMANodeAffinity
      = some numaInfo.DefaultAffinityMask := by
  unfold createDistributedHint
  dsimp only
  split <;> rfl

lemma createDistributedHint_preferred (gate : Bool) (numaInfo : NUMAInfo)
    (ph : ProvidersHints) :
    (createDistributedHint gate numaInfo ph).Preferred
      = (affineHints ph).all (fun h => h.Preferred) := by
  unfold createDistributedHint
  dsimp only
  split <;> rfl

lemma score_term_eq (h : TopologyHint) :
    (if h.hasEnhancedFields then TopologyHint.GetScore true h else (0 : ℚ))
      = h.Score.getD 0 := by
  rcases hs : h.Score with _ | s
  · by_cases he : h.hasEnhancedFields = true <;>
      simp [he, TopologyHint.GetScore, hs]
  · have he : h.hasEnhancedFields = true := by
      simp [TopologyHint.hasEnhancedFields, hs]
    simp [he, TopologyHint.GetScore, hs]

lemma createDistributedHint_score (numaInfo : NUMAInfo) (ph : ProvidersHints)
    (hcount : 0 < (affineHints ph).length) :
    (createDistributedHint true numaInfo ph).Score
      = some (((affineHints ph).map (fun h => h.Score.getD 0)).sum
          / ((affineHints ph).length : ℚ)
          + ((numaInfo.DefaultAffinityMask.card : ℚ) - 1) * 5) := by
  unfold createDistributedHint
  dsimp only
  rw [if_pos (by simp [hcount])]
  simp only [Bool.true_and]
  rw [show (fun h : TopologyHint =>
        if h.hasEnhancedFields = true then TopologyHint.GetScore true h else (0 : ℚ))
      = fun h : TopologyHint => h.Score.getD 0 from funext score_term_eq]

/-- Claim C2: with the gate on, at least two distinct resource types, more
than one NUMA node (with distinct ids), and at least one hint carrying an
affinity, `distributedPolicy.Merge` returns the distributed hint: affinity
equal to the default all-nodes mask, preferred iff every affinity-bearing
input hint is preferred, score equal to the average input score plus a 5.0
penalty per NUMA node beyond the first, and an admit flag of `true`. -/
theorem claim_C2_distributed_merge (numaInfo : NUMAInfo) (ph : ProvidersHints)
    (hmulti : hasMultipleResourceTypes ph = true)
    (hnodup : numaInfo.Nodes.Nodup)
    (hN : 1 < numaInfo.Nodes.length)
    (hcount : 0 < (affineHints ph).length) :
    ∃ hint, MergeDistributed true numaInfo ph = some (hint, true) ∧
      hint.NUMANodeAffinity = some numaInfo.DefaultAffinityMask ∧
      hint.Preferred = (affineHints ph).all (fun h => h.Preferred) ∧
      hint.Score = some
        (((affineHints ph).map (fun h => h.Score.getD 0)).sum
            / ((affineHints ph).length : ℚ)
          + 5 * ((numaInfo.Nodes.length : ℚ) - 1)) := by
  have hcard : numaInfo.DefaultAffinityMask.card = numaInfo.Nodes.length :=
    List.toFinset_card_of_nodup hnodup
  have hdaff := createDistributedHint_aff true numaInfo ph
  have hmain : MergeDistributed true numaInfo ph
      = some (createDistributedHint true numaInfo ph, true) := by
    unfold MergeDistributed
    rw [if_neg (by simp), if_neg (by simp [hmulti])]
    unfold applyDistributionLogic
    rcases enhancedMergeOpt_isSome true true numaInfo ph with ⟨base, hbase, _⟩
    rw [hbase, Option.map_some', Option.map_some']
    dsimp only
    rw [if_neg (by omega : ¬ numaInfo.Nodes.length ≤ 1)]
    simp only [hdaff]
    rw [if_pos (by rw [hcard]; exact hN)]
    simp [canAdmitPodResult, hdaff]
  refine ⟨createDistributedHint true numaInfo ph, hmain, hdaff,
    createDistributedHint_preferred true numaInfo ph, ?_⟩
  rw [createDistributedHint_score numaInfo ph hcount, hcard]
  congr 1
  ring

/-- Witness for C2 at the two-resource, two-node scenario with enhanced
hints scored 50 and 70 (average 60, distribution penalty 5). -/
theorem claim_C2_witness :
    ∃ hint, MergeDistributed true numaTwo phTwoRes = some (hint, true) ∧
      hint.NUMANodeAffinity = some numaTwo.DefaultAffinityMask ∧
      hint.Preferred = (affineHints phTwoRes).all (fun h => h.Preferred) ∧
      hint.Score = some
        (((affineHints phTwoRes).map (fun h => h.Score.getD 0)).sum
            / ((affineHints phTwoRes).length : ℚ)
          + 5 * ((numaTwo.Nodes.length : ℚ) - 1)) :=
  claim_C2_distributed_merge numaTwo phTwoRes (by decide) (by decide)
    (by decide) (by decide)

/-! ## Device-generator structure lemmas -/

lemma genStep_fst (gate : Bool) (allDevices available reusable : List Device)
    (request : ℤ) (acc : ℕ × List TopologyHint) (mask : BitMask) :
    (genStep gate allDevices available reusable request acc mask).1
      = if request ≤ (devicesInMask allDevices mask : ℤ) ∧ mask.card < acc.1
        then mask.card else acc.1 := by
  unfold genStep
  dsimp only
  split
  · rfl
  · split <;> rfl

lemma genFold_fst (gate : Bool) (allDevices available reusable : List Device)
    (request : ℤ) :
    ∀ (masks : List BitMask) (acc : ℕ × List TopologyHint),
      (masks.foldl (genStep gate allDevices available reusable request) acc).1
        = masks.foldl
            (fun a mask =>
              if request ≤ (devicesInMask allDevices mask : ℤ) ∧ mask.card < a
              then mask.card else a)
            acc.1 := by
  intro masks
  induction masks with
  | nil => intro acc; rfl
  | cons m ms ih =>
    intro acc
    rw [List.foldl_cons, List.foldl_cons, ih]
    rw [genStep_fst]

lemma genStep_snd (gate : Bool) (allDevices available reusable : List Device)
    (request : ℤ) (acc : ℕ × List TopologyHint) (mask : BitMask) :
    (genStep gate allDevices available reusable request acc mask).2
      = if emitsMask available reusable request mask
        then acc.2 ++ [mkDeviceHint gate allDevices mask request]
        else acc.2 := by
  have hiff : (reusable.any
        (fun d => d.topology.isSome && !anySet mask (nodeIds d.topology)) = true)
      ↔ ¬ (∀ d ∈ reusable, d.topology.isSome = true →
            anySet mask (nodeIds d.topology) = true) := by
    simp [List.any_eq_true]
  unfold genStep emitsMask
  dsimp only
  rw [apply_ite Prod.snd]
  rw [apply_ite Prod.snd]
  dsimp only
  by_cases hany : reusable.any
      (fun d => d.topology.isSome && !anySet mask (nodeIds d.topology)) = true
  · rw [if_pos hany, if_neg (fun he => (hiff.mp hany) he.1)]
  · rw [if_neg hany]
    have hall := not_not.mp (fun hnp => hany (hiff.mpr hnp))
    by_cases hlt : ((((reusable.filter (fun d => d.topology.isSome)).length
        + (available.filter (fun d => anySet mask (nodeIds d.topology))).length : ℕ)) : ℤ)
        < request
    · rw [if_pos hlt, if_neg (fun he => absurd he.2 (not_le.mpr hlt))]
    · rw [if_neg hlt, if_pos ⟨hall, not_lt.mp hlt⟩]

lemma genFold_mem (gate : Bool) (allDevices available reusable : List Device)
    (request : ℤ) :
    ∀ (masks : List BitMask) (acc : ℕ × List TopologyHint) (h : TopologyHint),
      (h ∈ (masks.foldl (genStep gate allDevices available reusable request) acc).2
        ↔ h ∈ acc.2 ∨ ∃ M ∈ masks, emitsMask available reusable request M ∧
            h = mkDeviceHint gate allDevices M request) := by
  intro masks
  induction masks with
  | nil => intro acc h; simp
  | cons m ms ih =>
    intro acc h
    rw [List.foldl_cons, ih]
    constructor
    · rintro (hmem | hrest)
      · rw [genStep_snd] at hmem
        by_cases he : emitsMask available reusable request m
        · rw [if_pos he] at hmem
          rcases List.mem_append.mp hmem with h1 | h2
          · exact Or.inl h1
          · exact Or.inr ⟨m, List.mem_cons_self m ms, he, by simpa using h2⟩
        · rw [if_neg he] at hmem
          exact Or.inl hmem
      · rcases hrest with ⟨M, hM, hc, rfl⟩
        exact Or.inr ⟨M, List.mem_cons_of_mem m hM, hc, rfl⟩
    · rintro (hmem | ⟨M, hM, hc, rfl⟩)
      · left
        rw [genStep_snd]
        split
        · exact List.mem_append.mpr (Or.inl hmem)
        · exact hmem
      · rcases List.mem_cons.mp hM with rfl | hM2
        · left
          rw [genStep_snd, if_pos hc]
          exact List.mem_append.mpr (Or.inr (by simp))
        · exact Or.inr ⟨M, hM2, hc, rfl⟩

lemma generate_eq (gate : Bool) (allDevices : List Device) (numaNodes : List ℕ)
    (available reusable : List Device) (request : ℤ) :
    generateDeviceTopologyHints gate allDevices numaNodes available reusable request
      = ((iterateBitMasks numaNodes).foldl
            (genStep gate allDevices available reusable request)
            (numaNodes.length, [])).2.map
          (fun h =>
            if (h.NUMANodeAffinity.map Finset.card).getD 0
                = minAffinitySizeDev allDevices numaNodes request then
              { h with Preferred := true }
            else h) := by
  unfold generateDeviceTopologyHints minAffinitySizeDev
  dsimp only
  rw [genFold_fst]

lemma calcEnh_aff_pref (gate : Bool) (allDevices : List Device)
    (hint : TopologyHint) (request : ℤ) :
    (calculateEnhancedTopologyFields gate allDevices hint request).NUMANodeAffinity
        = hint.NUMANodeAffinity ∧
    (calculateEnhancedTopologyFields gate allDevices hint request).Preferred
        = hint.Preferred := by
  cases gate
  · exact ⟨rfl, rfl⟩
  · unfold calculateEnhancedTopologyFields TopologyHint.SetEnhancedFields
    rcases haff : hint.NUMANodeAffinity with _ | mask
    · exact ⟨haff, rfl⟩
    · dsimp only
      by_cases hni : (getBits mask).isEmpty = true
      · rw [if_pos hni]
        exact ⟨haff, rfl⟩
      · rw [if_neg hni]
        exact ⟨rfl, rfl⟩

lemma mkDeviceHint_aff (gate : Bool) (allDevices : List Device) (mask : BitMask)
    (request : ℤ) :
    (mkDeviceHint gate allDevices mask request).NUMANodeAffinity = some mask := by
  unfold mkDeviceHint
  split
  · exact (calcEnh_aff_pref gate allDevices _ request).1
  · rfl

lemma mkDeviceHint_preferred (gate : Bool) (allDevices : List Device)
    (mask : BitMask) (request : ℤ) :
    (mkDeviceHint gate allDevices mask request).Preferred = false := by
  unfold mkDeviceHint
  split
  · exact (calcEnh_aff_pref gate allDevices _ request).2
  · rfl

/-- Claim C4: in `generateDeviceTopologyHints`, a returned hint is preferred
exactly when its affinity cardinality equals `minAffinitySize`, the minimum
over all enumerated masks holding at least `request` devices (initialized to
the NUMA node count). -/
theorem claim_C4_preferred_iff (gate : Bool) (allDevices : List Device)
    (numaNodes : List ℕ) (available reusable : List Device) (request : ℤ)
    (h : TopologyHint)
    (hmem : h ∈ generateDeviceTopologyHints gate allDevices numaNodes
      available reusable request) :
    ∃ m, h.NUMANodeAffinity = some m ∧
      (h.Preferred = true ↔ m.card = minAffinitySizeDev allDevices numaNodes request) := by
  rw [generate_eq] at hmem
  rcases List.mem_map.mp hmem with ⟨h0, h0mem, rfl⟩
  rcases (genFold_mem gate allDevices available reusable request _ _ h0).mp h0mem with
    hfalse | ⟨M, _, _, rfl⟩
  · exact absurd hfalse (List.not_mem_nil h0)
  · have haff := mkDeviceHint_aff gate allDevices M request
    have hpref := mkDeviceHint_preferred gate allDevices M request
    rw [haff]
    simp only [Option.map_some', Option.getD_some]
    by_cases hc : M.card = minAffinitySizeDev allDevices numaNodes request
    · rw [if_pos hc]
      exact ⟨M, rfl, by simp [hc]⟩
    · rw [if_neg hc]
      refine ⟨M, haff, ?_⟩
      rw [hpref]
      simp [hc]

/-- Witness for C4: on a two-node machine with one device per node and a
request of one device, the emitted `{0}` hint is preferred and its
cardinality 1 is the minimum satisfiable affinity size. -/
theorem claim_C4_witness :
    ∃ m, (mkPlainHint (some {0}) true).NUMANodeAffinity = some m ∧
      ((mkPlainHint (some {0}) true).Preferred = true
        ↔ m.card = minAffinitySizeDev [devA, devB] [0, 1] 1) :=
  claim_C4_preferred_iff false [devA, devB] [0, 1] [devA, devB] [] 1
    (mkPlainHint (some {0}) true) (by decide)

lemma mem_iterateBitMasks_nonempty (nodes : List ℕ) (M : BitMask)
    (hM : M ∈ iterateBitMasks nodes) : M ≠ ∅ := by
  unfold iterateBitMasks at hM
  rcases List.mem_flatMap.mp hM with ⟨k, _, hM2⟩
  rcases List.mem_map.mp hM2 with ⟨l, hl, rfl⟩
  have hlen := (List.mem_sublistsLen.mp hl).2
  cases l with
  | nil => simp at hlen
  | cons a as =>
    intro hemp
    have ha : a ∈ (a :: as).toFinset := by simp
    rw [hemp] at ha
    exact Finset.not_mem_empty a ha

lemma getBits_isEmpty_false (m : BitMask) (hne : m ≠ ∅) :
    (getBits m).isEmpty = false := by
  have hlen : (getBits m).length = m.card := Finset.length_sort _
  have hpos : 0 < m.card :=
    Finset.card_pos.mpr (Finset.nonempty_iff_ne_empty.mpr hne)
  cases hgb : getBits m with
  | nil => rw [hgb] at hlen; simp at hlen; omega
  | cons a l => rfl

lemma ite_lt_eq_max (c x : ℚ) : (if x < c then c else x) = max c x := by
  rcases le_or_lt c x with h | h
  · rw [if_neg (not_lt.mpr h), max_eq_right h]
  · rw [if_pos h, max_eq_left (le_of_lt h)]

lemma ite_gt_eq_min (c x : ℚ) : (if x > c then c else x) = min c x := by
  rcases le_or_lt x c with h | h
  · rw [if_neg (not_lt.mpr h), min_eq_right h]
  · rw [if_pos h, min_eq_left (le_of_lt h)]

lemma mkDeviceHint_fields (allDevices : List Device) (mask : BitMask)
    (request : ℤ) (hne : mask ≠ ∅) :
    (mkDeviceHint true allDevices mask request).HopCount = some (claimHopCount mask) ∧
    (mkDeviceHint true allDevices mask request).Distance = some (claimDistance mask) ∧
    (mkDeviceHint true allDevices mask request).Bandwidth = some (claimBandwidth mask) ∧
    (0 < availableDevicesCount allDevices (getBits mask) →
      (mkDeviceHint true allDevices mask request).Score
        = some (claimScore allDevices mask request)) := by
  have hlen : (getBits mask).length = mask.card := Finset.length_sort _
  have hie := getBits_isEmpty_false mask hne
  have hcard : 0 < mask.card :=
    Finset.card_pos.mpr (Finset.nonempty_iff_ne_empty.mpr hne)
  have hhopeq : (if ((mask.card : ℤ) - 1) < 0 then (0 : ℤ) else (mask.card : ℤ) - 1)
      = claimHopCount mask := by
    unfold claimHopCount
    rw [if_neg (by omega), max_eq_left (by omega)]
  have hdisteq : (if mask.card = 1 then (10 : ℤ) else 10 + claimHopCount mask * 20)
      = claimDistance mask := by
    unfold claimDistance
    split <;> ring
  simp only [mkDeviceHint, calculateEnhancedTopologyFields,
    TopologyHint.SetEnhancedFields, hie, if_true, Bool.false_eq_true, if_false,
    hlen, hhopeq, hdisteq]
  refine ⟨trivial, trivial, ?_, ?_⟩
  · rw [ite_lt_eq_max]
    unfold claimBandwidth
    congr 1
    ring_nf
  · intro hpos
    rw [if_neg (Nat.pos_iff_ne_zero.mp hpos)]
    rw [ite_gt_eq_min, ite_lt_eq_max]
    unfold claimScore claimUtilization
    congr 1
    ring_nf

lemma mkDeviceHint_score_isSome (allDevices : List Device) (mask : BitMask)
    (request : ℤ) (hne : mask ≠ ∅) :
    (mkDeviceHint true allDevices mask request).Score.isSome := by
  have hie := getBits_isEmpty_false mask hne
  simp [mkDeviceHint, calculateEnhancedTopologyFields,
    TopologyHint.SetEnhancedFields, hie]

/-- Claim C7: with the gate off, hint construction never populates enhanced
fields — `SetEnhancedFields` is a no-op, `CreateEnhancedHint` returns a hint
with all four enhanced fields absent, and every device-generator hint has
all four fields absent; with the gate on, every generated hint with an
affinity carries all four fields. -/
theorem claim_C7_gate_frame :
    (∀ (th : TopologyHint) (hop : Option ℤ) (bw : Option ℚ) (dist : Option ℤ)
        (sc : Option ℚ), TopologyHint.SetEnhancedFields false th hop bw dist sc = th) ∧
    (∀ (aff : Option BitMask) (pref : Bool) (hop : ℤ) (bw : ℚ) (dist : ℤ) (ds : ℤ),
        (CreateEnhancedHint false aff pref hop bw dist ds).HopCount = none ∧
        (CreateEnhancedHint false aff pref hop bw dist ds).Bandwidth = none ∧
        (CreateEnhancedHint false aff pref hop bw dist ds).Distance = none ∧
        (CreateEnhancedHint false aff pref hop bw dist ds).Score = none) ∧
    (∀ (allDevices : List Device) (numaNodes : List ℕ)
        (available reusable : List Device) (request : ℤ) (h : TopologyHint),
        h ∈ generateDeviceTopologyHints false allDevices numaNodes available
          reusable request →
        h.HopCount = none ∧ h.Bandwidth = none ∧ h.Distance = none ∧ h.Score = none) ∧
    (∀ (allDevices : List Device) (numaNodes : List ℕ)
        (available reusable : List Device) (request : ℤ) (h : TopologyHint),
        h ∈ generateDeviceTopologyHints true allDevices numaNodes available
          reusable request →
        h.NUMANodeAffinity ≠ none →
        h.HopCount.isSome ∧ h.Bandwidth.isSome ∧ h.Distance.isSome ∧ h.Score.isSome) := by
  refine ⟨?_, ?_, ?_, ?_⟩
  · intro th hop bw dist sc; rfl
  · intro aff pref hop bw dist ds; exact ⟨rfl, rfl, rfl, rfl⟩
  · intro allDevices numaNodes available reusable request h hmem
    rw [generate_eq] at hmem
    rcases List.mem_map.mp hmem with ⟨h0, h0mem, rfl⟩
    rcases (genFold_mem false allDevices available reusable request _ _ h0).mp h0mem with
      hfalse | ⟨M, _, _, rfl⟩
    · exact absurd hfalse (List.not_mem_nil h0)
    · split <;> exact ⟨rfl, rfl, rfl, rfl⟩
  · intro allDevices numaNodes available reusable request h hmem _
    rw [generate_eq] at hmem
    rcases List.mem_map.mp hmem with ⟨h0, h0mem, rfl⟩
    rcases (genFold_mem true allDevices available reusable request _ _ h0).mp h0mem with
      hfalse | ⟨M, hMmem, _, rfl⟩
    · exact absurd hfalse (List.not_mem_nil h0)
    · have hne := mem_iterateBitMasks_nonempty numaNodes M hMmem
      rcases mkDeviceHint_fields allDevices M request hne with ⟨h1, h2, h3, _⟩
      have hsc := mkDeviceHint_score_isSome allDevices M request hne
      refine ⟨?_, ?_, ?_, ?_⟩ <;> split <;> simp [h1, h2, h3, hsc]

/-- Witness for C7: `SetEnhancedFields` is a no-op with the gate off, and a
hint generated with the gate off carries no enhanced fields. -/
theorem claim_C7_witness :
    TopologyHint.SetEnhancedFields false hintR1 (some 3) (some 3) (some 3) (some 3)
        = hintR1 ∧
    ((mkPlainHint (some {0}) true).HopCount = none ∧
      (mkPlainHint (some {0}) true).Bandwidth = none ∧
      (mkPlainHint (some {0}) true).Distance = none ∧
      (mkPlainHint (some {0}) true).Score = none) :=
  ⟨claim_C7_gate_frame.1 hintR1 (some 3) (some 3) (some 3) (some 3),
   claim_C7_gate_frame.2.2.1 [devA, devB] [0, 1] [devA, devB] [] 1
     (mkPlainHint (some {0}) true) (by decide)⟩

lemma getBits_zero_one : getBits ({0, 1} : Finset ℕ) = [0, 1] := by
  unfold getBits
  rw [Finset.sort_insert]
  · rw [Finset.sort_singleton]
  · intro b hb
    simp at hb
    omega
  · simp

lemma card_zero_one : ({0, 1} : Finset ℕ).card = 2 := by decide

lemma claimHopCount_zero_one : claimHopCount ({0, 1} : Finset ℕ) = 1 := by
  unfold claimHopCount
  rw [card_zero_one]
  rw [max_eq_left (by norm_num)]
  norm_num

lemma claimDistance_zero_one : claimDistance ({0, 1} : Finset ℕ) = 30 := by
  unfold claimDistance
  rw [card_zero_one, claimHopCount_zero_one]
  norm_num

lemma claimBandwidth_zero_one : claimBandwidth ({0, 1} : Finset ℕ) = 48 := by
  unfold claimBandwidth
  rw [claimHopCount_zero_one]
  rw [max_eq_right (by norm_num)]
  norm_num

lemma mkDeviceHint_concrete (allDevices : List Device) (request : ℤ) (sc : ℚ)
    (hsc : (mkDeviceHint true allDevices ({0, 1} : Finset ℕ) request).Score = some sc) :
    mkDeviceHint true allDevices ({0, 1} : Finset ℕ) request
      = ⟨some {0, 1}, false, some 1, some 48, some 30, some sc⟩ := by
  rcases mkDeviceHint_fields allDevices ({0, 1} : Finset ℕ) request (by decide) with
    ⟨h1, h2, h3, _⟩
  have haff := mkDeviceHint_aff true allDevices ({0, 1} : Finset ℕ) request
  have hpref := mkDeviceHint_preferred true allDevices ({0, 1} : Finset ℕ) request
  conv_lhs => rw [show mkDeviceHint true allDevices ({0, 1} : Finset ℕ) request
    = (⟨(mkDeviceHint true allDevices ({0, 1} : Finset ℕ) request).NUMANodeAffinity,
        (mkDeviceHint true allDevices ({0, 1} : Finset ℕ) request).Preferred,
        (mkDeviceHint true allDevices ({0, 1} : Finset ℕ) request).HopCount,
        (mkDeviceHint true allDevices ({0, 1} : Finset ℕ) request).Bandwidth,
        (mkDeviceHint true allDevices ({0, 1} : Finset ℕ) request).Distance,
        (mkDeviceHint true allDevices ({0, 1} : Finset ℕ) request).Score⟩ : TopologyHint)
    from rfl]
  rw [haff, hpref, h1, h2, h3, hsc, claimHopCount_zero_one, claimDistance_zero_one,
    claimBandwidth_zero_one]

lemma scenScore : claimScore [devA, devB] ({0, 1} : Finset ℕ) 2 = 52 := by
  have hav : availableDevicesCount [devA, devB] [0, 1] = 2 := by decide
  have hu : claimUtilization [devA, devB] ({0, 1} : Finset ℕ) 2 = 1 := by
    unfold claimUtilization
    rw [getBits_zero_one, hav]
    norm_num
  unfold claimScore
  rw [hu, claimDistance_zero_one, claimHopCount_zero_one]
  rw [max_eq_right (by norm_num)]
  norm_num

lemma cexScore : claimScore [dMulti] ({0, 1} : Finset ℕ) 1 = 47 := by
  have hav : availableDevicesCount [dMulti] [0, 1] = 2 := by decide
  have hu : claimUtilization [dMulti] ({0, 1} : Finset ℕ) 1 = 1 / 2 := by
    unfold claimUtilization
    rw [getBits_zero_one, hav]
    rw [min_eq_right (by norm_num)]
    norm_num
  unfold claimScore
  rw [hu, claimDistance_zero_one, claimHopCount_zero_one]
  rw [max_eq_right (by norm_num)]
  norm_num

lemma cexSpecScore : specScore [dMulti] ({0, 1} : Finset ℕ) 1 = 52 := by
  have hdm : devicesInMask [dMulti] ({0, 1} : Finset ℕ) = 1 := by decide
  unfold specScore specUtilization
  rw [hdm, card_zero_one]
  norm_num

/-- Claim C3 counterexample: for a single available device whose topology
names both NUMA nodes 0 and 1, the emitted `{0,1}` hint carries score 47 —
the code divides the request by the per-(device, node) count 2, not by the
once-per-device `devices_in_mask` count 1, under which the claimed formula
yields 52. -/
theorem claim_C3_counterexample :
    hintCex ∈ generateDeviceTopologyHints true [dMulti] [0, 1] [dMulti] [] 1 ∧
    hintCex.NUMANodeAffinity = some ({0, 1} : Finset ℕ) ∧
    hintCex.Score = some 47 ∧
    specScore [dMulti] ({0, 1} : Finset ℕ) 1 = 52 := by
  have hsc : (mkDeviceHint true [dMulti] ({0, 1} : Finset ℕ) 1).Score = some 47 := by
    rcases mkDeviceHint_fields [dMulti] ({0, 1} : Finset ℕ) 1 (by decide) with
      ⟨_, _, _, h4⟩
    rw [h4 (by rw [getBits_zero_one]; decide), cexScore]
  have hmk := mkDeviceHint_concrete [dMulti] 1 47 hsc
  refine ⟨?_, rfl, rfl, cexSpecScore⟩
  rw [generate_eq]
  apply List.mem_map.mpr
  refine ⟨mkDeviceHint true [dMulti] ({0, 1} : Finset ℕ) 1, ?_, ?_⟩
  · exact (genFold_mem true [dMulti] [dMulti] [] 1 _ _ _).mpr
      (Or.inr ⟨{0, 1}, by decide, by decide, rfl⟩)
  · rw [hmk]
    have hmin : minAffinitySizeDev [dMulti] [0, 1] 1 = 1 := by decide
    rw [hmin]
    rfl

/-- Claim C3 (amended): with the gate on, every hint emitted by the device
generator is decorated with `hop_count = |M|−1` clamped at 0, `distance`
10 for single-node masks and `10 + 20·hop_count` otherwise, `bandwidth =
max(10, 80·(1 − 0.4·hop_count))`, and `score = max(0, 2·(distance−10) +
12·hop_count − 10·(1 − utilization))` where `utilization = min(1,
request / devices_in_mask)` and `devices_in_mask` counts one per (device,
topology-node) pair intersecting the mask — a device counts once per node
of its topology lying in the mask, not once overall.  In particular for
N=4, two devices on nodes 0 and 1 and request 2, the emitted `{0,1}` hint
carries `hop_count=1`, `distance=30`, `bandwidth=48.0`. -/
theorem claim_C3_amended_decoration :
    (∀ (allDevices : List Device) (numaNodes : List ℕ)
        (available reusable : List Device) (request : ℤ) (h : TopologyHint),
        h ∈ generateDeviceTopologyHints true allDevices numaNodes available
          reusable request →
        ∃ m, h.NUMANodeAffinity = some m ∧
          h.HopCount = some (claimHopCount m) ∧
          h.Distance = some (claimDistance m) ∧
          h.Bandwidth = some (claimBandwidth m) ∧
          (0 < availableDevicesCount allDevices (getBits m) →
            h.Score = some (claimScore allDevices m request))) ∧
    (hintScen ∈ generateDeviceTopologyHints true [devA, devB] [0, 1, 2, 3]
        [devA, devB] [] 2 ∧
      hintScen.NUMANodeAffinity = some ({0, 1} : Finset ℕ) ∧
      hintScen.HopCount = some 1 ∧ hintScen.Distance = some 30 ∧
      hintScen.Bandwidth = some 48) := by
  constructor
  · intro allDevices numaNodes available reusable request h hmem
    rw [generate_eq] at hmem
    rcases List.mem_map.mp hmem with ⟨h0, h0mem, rfl⟩
    rcases (genFold_mem true allDevices available reusable request _ _ h0).mp h0mem with
      hfalse | ⟨M, hMmem, _, rfl⟩
    · exact absurd hfalse (List.not_mem_nil h0)
    · have hne := mem_iterateBitMasks_nonempty numaNodes M hMmem
      rcases mkDeviceHint_fields allDevices M request hne with ⟨h1, h2, h3, h4⟩
      have haff := mkDeviceHint_aff true allDevices M request
      refine ⟨M, ?_⟩
      split <;> exact ⟨haff, h1, h2, h3, h4⟩
  · have hsc : (mkDeviceHint true [devA, devB] ({0, 1} : Finset ℕ) 2).Score
        = some 52 := by
      rcases mkDeviceHint_fields [devA, devB] ({0, 1} : Finset ℕ) 2 (by decide) with
        ⟨_, _, _, h4⟩
      rw [h4 (by rw [getBits_zero_one]; decide), scenScore]
    have hmk := mkDeviceHint_concrete [devA, devB] 2 52 hsc
    refine ⟨?_, rfl, rfl, rfl, rfl⟩
    rw [generate_eq]
    apply List.mem_map.mpr
    refine ⟨mkDeviceHint true [devA, devB] ({0, 1} : Finset ℕ) 2, ?_, ?_⟩
    · exact (genFold_mem true [devA, devB] [devA, devB] [] 2 _ _ _).mpr
        (Or.inr ⟨{0, 1}, by decide, by decide, rfl⟩)
    · rw [hmk]
      have hmin : minAffinitySizeDev [devA, devB] [0, 1, 2, 3] 2 = 2 := by decide
      rw [hmin]
      rfl

/-- Witness for C3 at the scenario input: the `{0,1}` hint's decoration
matches the amended formulas. -/
theorem claim_C3_witness :
    ∃ m, hintScen.NUMANodeAffinity = some m ∧
      hintScen.HopCount = some (claimHopCount m) ∧
      hintScen.Distance = some (claimDistance m) ∧
      hintScen.Bandwidth = some (claimBandwidth m) ∧
      (0 < availableDevicesCount [devA, devB] (getBits m) →
        hintScen.Score = some (claimScore [devA, devB] m 2)) :=
  claim_C3_amended_decoration.1 [devA, devB] [0, 1, 2, 3] [devA, devB] [] 2
    hintScen claim_C3_amended_decoration.2.1

lemma genStep_nilTopo (gate : Bool) (allDevices available reusable : List Device)
    (request : ℤ) (d : Device) (hd : d.topology = none) :
    genStep gate allDevices available (d :: reusable) request
      = genStep gate allDevices available reusable request := by
  funext acc mask
  unfold genStep
  simp [hd]

lemma postPass_aff (minSize : ℕ) (x : TopologyHint) :
    (if (x.NUMANodeAffinity.map Finset.card).getD 0 = minSize
      then { x with Preferred := true } else x).NUMANodeAffinity
      = x.NUMANodeAffinity := by
  split <;> rfl

/-- Claim C10: a reusable device with nil topology never disqualifies a mask
and never counts toward the request-satisfaction total (the generator's
result is unchanged by such a device), and a mask is emitted exactly when
every topology-bearing reusable device intersects it and the count of
topology-bearing reusable devices plus available devices intersecting it
reaches the request. -/
theorem claim_C10_reusable_nil_topology :
    (∀ (gate : Bool) (allDevices : List Device) (numaNodes : List ℕ)
        (available reusable : List Device) (request : ℤ) (d : Device),
        d.topology = none →
        generateDeviceTopologyHints gate allDevices numaNodes available
            (d :: reusable) request
          = generateDeviceTopologyHints gate allDevices numaNodes available
              reusable request) ∧
    (∀ (gate : Bool) (allDevices : List Device) (numaNodes : List ℕ)
        (available reusable : List Device) (request : ℤ) (M : BitMask),
        M ∈ iterateBitMasks numaNodes →
        ((∃ h ∈ generateDeviceTopologyHints gate allDevices numaNodes available
              reusable request, h.NUMANodeAffinity = some M) ↔
          ((∀ d ∈ reusable, d.topology.isSome = true →
              anySet M (nodeIds d.topology) = true) ∧
            request ≤ (((reusable.filter (fun d => d.topology.isSome)).length
                + (available.filter
                    (fun d => anySet M (nodeIds d.topology))).length : ℕ) : ℤ)))) := by
  constructor
  · intro gate allDevices numaNodes available reusable request d hd
    unfold generateDeviceTopologyHints
    rw [genStep_nilTopo gate allDevices available reusable request d hd]
  · intro gate allDevices numaNodes available reusable request M hMmem
    constructor
    · rintro ⟨h, hmem, haff⟩
      rw [generate_eq] at hmem
      rcases List.mem_map.mp hmem with ⟨h0, h0mem, rfl⟩
      rcases (genFold_mem gate allDevices available reusable request _ _ h0).mp h0mem with
        hfalse | ⟨M2, _, hemit, rfl⟩
      · exact absurd hfalse (List.not_mem_nil h0)
      · rw [postPass_aff, mkDeviceHint_aff] at haff
        rcases Option.some.injEq M2 M ▸ haff with rfl
        exact hemit
    · intro he
      rw [generate_eq]
      refine ⟨_, List.mem_map.mpr
        ⟨mkDeviceHint gate allDevices M request,
         (genFold_mem gate allDevices available reusable request _ _ _).mpr
           (Or.inr ⟨M, hMmem, he, rfl⟩), rfl⟩, ?_⟩
      rw [postPass_aff]
      exact mkDeviceHint_aff gate allDevices M request

/-- Witness for C10: a nil-topology reusable device leaves the generator's
output unchanged, and the `{0}` mask's emission matches the counting
condition on a two-node, two-device machine. -/
theorem claim_C10_witness :
    (generateDeviceTopologyHints false [devA, devB] [0, 1] [devA, devB]
        [⟨"nil-dev", none⟩] 1
      = generateDeviceTopologyHints false [devA, devB] [0, 1] [devA, devB] [] 1) ∧
    ((∃ h ∈ generateDeviceTopologyHints false [devA, devB] [0, 1] [devA, devB] [] 1,
        h.NUMANodeAffinity = some ({0} : Finset ℕ)) ↔
      ((∀ d ∈ ([] : List Device), d.topology.isSome = true →
          anySet ({0} : Finset ℕ) (nodeIds d.topology) = true) ∧
        (1 : ℤ) ≤ ((((([] : List Device).filter (fun d => d.topology.isSome)).length
            + ([devA, devB].filter
                (fun d => anySet ({0} : Finset ℕ) (nodeIds d.topology))).length
            : ℕ)) : ℤ))) :=
  ⟨claim_C10_reusable_nil_topology.1 false [devA, devB] [0, 1] [devA, devB] [] 1
      ⟨"nil-dev", none⟩ rfl,
   claim_C10_reusable_nil_topology.2 false [devA, devB] [0, 1] [devA, devB] [] 1
      ({0} : Finset ℕ) (by decide)⟩

end TopoSpec
